import Mathlib

/-!
# Verification of `main.py` (pypi-scorecards)

Shallow embedding of the aggregation pipeline in `src/main.py`:
catalog loading (`main`, line 118), per-package scorecard fetching
(`fetch_checks_for_package`), aggregation (`fill_in_missing_checks` and the
check-name union built in `main`), sorting (`sort_packages`) and the two
report writers (`write_packages_to_csv`, `write_packages_to_readme`).

Modelling conventions:
* A JSON document is the inductive `Json` below (JSON booleans are omitted:
  no claim involves them and the upstream fields in play are numbers,
  strings, arrays and objects).  An HTTP response is a pair of a status
  code and an optional parsed body; `none` stands for a body that
  `json.loads` rejects.
* Python exceptions are the `PyErr` type; functions that can raise return
  `Except PyErr _`.  Machine floats are modelled as `ℚ` (all arithmetic the
  program performs on scores is exact at the inputs the claims mention).
* A Python `dict` is an insertion-ordered association list with unique
  keys; `dictGet`, `dictSet` and `dictSetdefault` mirror `d.get`,
  `d[k] = v` and `d.setdefault`.
* Check names are modelled as strings (the `checks` dict of the dataclass
  is typed `Dict[str, Optional[int]]`); a non-string `"name"` value in the
  upstream JSON is modelled as a type error.
-/

inductive Json where
  | null : Json
  | num : Int → Json
  | str : String → Json
  | arr : List Json → Json
  | obj : List (String × Json) → Json

inductive PyErr where
  | keyError : PyErr
  | indexError : PyErr
  | typeError : PyErr
  | jsonDecodeError : PyErr
  | zeroDivisionError : PyErr
deriving DecidableEq

/-- Ordered-dict lookup: `d.get(k)` / `k in d`. -/
def dictGet {α : Type} : List (String × α) → String → Option α
  | [], _ => none
  | (k, v) :: rest, key => if k = key then some v else dictGet rest key

/-- Ordered-dict assignment `d[k] = v`: updates in place, else appends. -/
def dictSet {α : Type} : List (String × α) → String → α → List (String × α)
  | [], key, val => [(key, val)]
  | (k, v) :: rest, key, val =>
    if k = key then (k, val) :: rest else (k, v) :: dictSet rest key val

/-- Ordered-dict `d.setdefault(k, v)`. -/
def dictSetdefault {α : Type} (m : List (String × α)) (key : String) (val : α) :
    List (String × α) :=
  match dictGet m key with
  | some _ => m
  | none => m ++ [(key, val)]

/-- Python subscription `j["key"]`: `KeyError` on a dict without the key,
`TypeError` on any non-dict value (the program only subscripts with string
literals, so list subscription is a `TypeError`, never an `IndexError`). -/
def getItem : Json → String → Except PyErr Json
  | Json.obj fields, key =>
    match dictGet fields key with
    | some v => Except.ok v
    | none => Except.error PyErr.keyError
  | _, _ => Except.error PyErr.typeError

/-- Python iteration `for x in j`: arrays yield elements, dicts yield their
keys, strings yield one-character strings, numbers and null raise. -/
def iterElems : Json → Except PyErr (List Json)
  | Json.arr xs => Except.ok xs
  | Json.obj fields => Except.ok (fields.map fun f => Json.str f.1)
  | Json.str s => Except.ok (s.toList.map fun c => Json.str (String.mk [c]))
  | _ => Except.error PyErr.typeError

/-- Python membership `key in j` for a string literal `key`. -/
def pyContains : Json → String → Except PyErr Bool
  | Json.obj fields, key => Except.ok (dictGet fields key).isSome
  | Json.arr xs, key =>
    Except.ok (xs.any fun x =>
      match x with
      | Json.str t => t = key
      | _ => false)
  | Json.str s, key => Except.ok (decide ((s.splitOn key).length ≠ 1))
  | _, _ => Except.error PyErr.typeError

/-- A package's check map (`Package.checks`): check name ↦ optional score. -/
abbrev Checks : Type := List (String × Option Int)

/-- `main.py` lines 45-52: one check's merge step.  A negative score is the
upstream "not computed" sentinel and is skipped; an already-stored larger
value is kept (`package.checks.get(check_name, 0.0) or 0.0` collapses a
missing key, a stored `None` and a stored `0` to `0`); otherwise the score
is stored. -/
def mergeCheck (m : Checks) (name : String) (score : Int) : Checks :=
  if score < 0 then m
  else if ((dictGet m name).join.getD 0 : Int) > score then m
  else dictSet m name (some score)

/-- `main.py` lines 41-52: the loop over `scorecard["check"]`.  Returns the
(possibly partially updated) check map together with the first raised
error, if any. -/
def processChecks : List Json → Checks → Checks × Option PyErr
  | [], m => (m, none)
  | c :: rest, m =>
    match getItem c "name" with
    | Except.error e => (m, some e)
    | Except.ok (Json.str name) =>
      match getItem c "score" with
      | Except.error e => (m, some e)
      | Except.ok (Json.num score) => processChecks rest (mergeCheck m name score)
      | Except.ok _ => (m, some PyErr.typeError)
    | Except.ok _ => (m, some PyErr.typeError)

/-- `main.py` lines 38-52: the loop over `data["version"]["projects"]`. -/
def processProjects : List Json → Checks → Checks × Option PyErr
  | [], m => (m, none)
  | p :: rest, m =>
    match pyContains p "scorecardV2" with
    | Except.error e => (m, some e)
    | Except.ok false => processProjects rest m
    | Except.ok true =>
      match getItem p "scorecardV2" with
      | Except.error e => (m, some e)
      | Except.ok scorecard =>
        match getItem scorecard "check" with
        | Except.error e => (m, some e)
        | Except.ok checkList =>
          match iterElems checkList with
          | Except.error e => (m, some e)
          | Except.ok cs =>
            match processChecks cs m with
            | (m2, some e) => (m2, some e)
            | (m2, none) => processProjects rest m2

/-- The body of the `try` block of `fetch_checks_for_package`
(`main.py` lines 37-53), starting from the parsed response body. -/
def runTry (data : Json) (m : Checks) : Checks × Option PyErr :=
  match getItem data "version" with
  | Except.error e => (m, some e)
  | Except.ok version =>
    match getItem version "projects" with
    | Except.error e => (m, some e)
    | Except.ok projects =>
      match iterElems projects with
      | Except.error e => (m, some e)
      | Except.ok ps => processProjects ps m

/-- `fetch_checks_for_package` (`main.py` lines 29-55) as a function of the
scorecard response (status and optionally-parsed body) and the package's
current check map.  A non-200 status returns before the body is parsed
(line 32); an unparsable body raises `json.JSONDecodeError` at line 34,
*outside* the `try`; the `except (KeyError, IndexError)` clause at line 54
swallows exactly those two error kinds, keeping the partial merges made
before the error (the dict is mutated in place). -/
def fetch_checks_for_package (status : Nat) (body : Option Json)
    (checks0 : Checks) : Except PyErr Checks :=
  if status ≠ 200 then Except.ok checks0
  else
    match body with
    | none => Except.error PyErr.jsonDecodeError
    | some data =>
      match runTry data checks0 with
      | (m, none) => Except.ok m
      | (m, some PyErr.keyError) => Except.ok m
      | (m, some PyErr.indexError) => Except.ok m
      | (_, some e) => Except.error e

/-- The catalog phase of `main` (`main.py` line 118):
`json.loads(http.request("GET", top_pypi_packages_url).data)["rows"]`, then
the `rows` value is iterated by the dict comprehension.  The response's
status code is a parameter because the claims quantify over it, but the
source never reads `resp.status` here — only `.data` — so the parameter is
unused. -/
def catalogPhase (status : Nat) (body : Option Json) : Except PyErr (List Json) :=
  match body with
  | none => Except.error PyErr.jsonDecodeError
  | some data =>
    match getItem data "rows" with
    | Except.error e => Except.error e
    | Except.ok rows => iterElems rows

example : catalogPhase 500 (some (Json.obj [("rows", Json.arr [])])) = Except.ok [] := rfl

example :
    processChecks
      [Json.obj [("name", Json.str "N"), ("score", Json.num 4)],
       Json.obj [("name", Json.str "N"), ("score", Json.num 7)]] [] =
    ([("N", some 7)], none) := rfl

deriving instance DecidableEq for Except

/-- The `Package` dataclass (`main.py` lines 18-23). -/
structure Package where
  name : String
  downloads : Int
  overall : ℚ
  checks : Checks
deriving DecidableEq

/-- Sequential fail-fast traversal: models a Python `for` loop whose body
may raise, over a list whose elements are processed independently. -/
def exList {α β : Type} (f : α → Except PyErr β) : List α → Except PyErr (List β)
  | [] => Except.ok []
  | a :: rest =>
    match f a with
    | Except.error e => Except.error e
    | Except.ok b =>
      match exList f rest with
      | Except.error e => Except.error e
      | Except.ok bs => Except.ok (b :: bs)

/-- The `setdefault` loop of `fill_in_missing_checks` (`main.py`
lines 62-63). -/
def fillChecks (checkNames : List String) (m : Checks) : Checks :=
  checkNames.foldl (fun acc n => dictSetdefault acc n none) m

/-- `main.py` lines 64-66: `sum(check_value or 0.0 for ...) / len(package.checks)`
(`v or 0.0` collapses `None` and `0` to `0`). -/
def overallOf (m : Checks) : ℚ :=
  (m.map fun kv => ((kv.2.getD 0 : Int) : ℚ)).sum / (m.length : ℚ)

/-- One iteration of the `fill_in_missing_checks` loop (`main.py`
lines 61-66) on a single package; dividing by an empty check map raises
`ZeroDivisionError`. -/
def fill_in_package (checkNames : List String) (p : Package) :
    Except PyErr Package :=
  let checks := fillChecks checkNames p.checks
  if checks.length = 0 then Except.error PyErr.zeroDivisionError
  else Except.ok { p with checks := checks, overall := overallOf checks }

/-- `fill_in_missing_checks` (`main.py` lines 58-66). -/
def fill_in_missing_checks (checkNames : List String) (ps : List Package) :
    Except PyErr (List Package) :=
  exList (fill_in_package checkNames) ps

/-- The key list of a package's check map. -/
def checksKeys (p : Package) : List String := p.checks.map Prod.fst

/-- `main.py` lines 129-132: the global check-name union, lexicographically
sorted (`set` union followed by `sorted`). -/
def checkUnion (ps : List Package) : List String :=
  List.insertionSort (fun a b : String => a ≤ b) ((ps.map checksKeys).flatten.dedup)

/-- The sort key of `sort_packages` (`main.py` line 111):
`(-p.overall, -p.downloads, p.name)` under Python's lexicographic tuple
comparison. -/
def sortKey (p : Package) : Lex (ℚ × Lex (Int × String)) :=
  toLex (-p.overall, toLex (-p.downloads, p.name))

def keyLt (a b : Package) : Prop := sortKey a < sortKey b

def keyLe (a b : Package) : Prop := sortKey a ≤ sortKey b

instance : DecidableRel keyLt := fun a b =>
  inferInstanceAs (Decidable (sortKey a < sortKey b))

instance : DecidableRel keyLe := fun a b =>
  inferInstanceAs (Decidable (sortKey a ≤ sortKey b))

instance : IsTotal Package keyLe :=
  ⟨fun a b => le_total (sortKey a) (sortKey b)⟩

instance : IsTrans Package keyLe :=
  ⟨fun _ _ _ hab hbc => le_trans hab hbc⟩

/-- `sort_packages` (`main.py` lines 110-111): Python's stable `sorted` by
the key tuple, modelled as a stable sort along `keyLe`. -/
def sort_packages (ps : List Package) : List Package :=
  List.insertionSort keyLe ps

/-- Decimal digit characters. -/
def digitChar : Nat → Char
  | 0 => '0'
  | 1 => '1'
  | 2 => '2'
  | 3 => '3'
  | 4 => '4'
  | 5 => '5'
  | 6 => '6'
  | 7 => '7'
  | 8 => '8'
  | 9 => '9'
  | _ => '*'

/-- Decimal digits, least-significant first; structural recursion on a
fuel bound (any fuel above the digit count yields the digits). -/
def natToDigitsRevAux : Nat → Nat → List Char
  | _, 0 => []
  | n, fuel + 1 =>
    if n < 10 then [digitChar n]
    else digitChar (n % 10) :: natToDigitsRevAux (n / 10) fuel

/-- Decimal digits of a natural number, least-significant first. -/
def natToDigitsRev (n : Nat) : List Char := natToDigitsRevAux n (n + 1)

/-- Python `str(n)` for a natural number. -/
def natToDecimal (n : Nat) : String := String.mk (natToDigitsRev n).reverse

/-- Python `str(i)` for an integer. -/
def intToDecimal (i : Int) : String :=
  (if i < 0 then "-" else "") ++ natToDecimal i.natAbs

/-- Python `f"{x:.2f}"`: the value rounded to two decimal places and
rendered with exactly two fractional digits. -/
def formatFixed2 (q : ℚ) : String :=
  let n : Int := round (q * 100)
  let a := n.natAbs
  (if n < 0 then "-" else "") ++
    natToDecimal (a / 100) ++ "." ++
      natToDecimal (a % 100 / 10) ++ natToDecimal (a % 100 % 10)

/-- Groups decimal digits (least-significant first) in threes, inserting
`','` separators. -/
def commaGroupRev : List Char → List Char
  | a :: b :: c :: d :: rest => a :: b :: c :: ',' :: commaGroupRev (d :: rest)
  | l => l

/-- Python `f"{i:,}"`: thousands separators. -/
def commaFormat (i : Int) : String :=
  (if i < 0 then "-" else "") ++
    String.mk (commaGroupRev (natToDigitsRev i.natAbs)).reverse

/-- `check_value_or_dash` (`main.py` lines 106-107). -/
def check_value_or_dash (check_value : Option Int) (empty : String) : String :=
  match check_value with
  | some v => intToDecimal v
  | none => empty

/-- The subscription `package.checks[check_name]` rendered through
`check_value_or_dash` (`main.py` lines 76 and 98): raises `KeyError` when
the name is missing from the package's map. -/
def checkField (p : Package) (empty : String) (n : String) :
    Except PyErr String :=
  match dictGet p.checks n with
  | none => Except.error PyErr.keyError
  | some v => Except.ok (check_value_or_dash v empty)

/-- Python `sep.join(xs)`. -/
def pyJoin (sep : String) : List String → String
  | [] => ""
  | [x] => x
  | x :: rest => x ++ sep ++ pyJoin sep rest

/-- The CSV header line (`main.py` line 73). -/
def csvHeader (checkNames : List String) : String :=
  "Package,Downloads,Overall," ++ pyJoin "," checkNames

/-- One CSV data row (`main.py` lines 75-77). -/
def csvRow (checkNames : List String) (p : Package) : Except PyErr String :=
  match exList (checkField p "") checkNames with
  | Except.error e => Except.error e
  | Except.ok fields =>
    Except.ok (p.name ++ "," ++ intToDecimal p.downloads ++ "," ++
      formatFixed2 p.overall ++ "," ++ pyJoin "," fields)

/-- `write_packages_to_csv` (`main.py` lines 69-77): the lines written to
the dated CSV file (header first, then one row per package in sorted
order, uncapped). -/
def write_packages_to_csv (checkNames : List String) (ps : List Package) :
    Except PyErr (List String) :=
  match exList (csvRow checkNames) (sort_packages ps) with
  | Except.error e => Except.error e
  | Except.ok rows => Except.ok (csvHeader checkNames :: rows)

/-- One Markdown table row (`main.py` line 98).  The dash literal is the
exact three-character string from the source file. -/
def mdRow (checkNames : List String) (p : Package) : Except PyErr String :=
  match exList (checkField p "â€“") checkNames with
  | Except.error e => Except.error e
  | Except.ok fields =>
    Except.ok ("[" ++ p.name ++ "](https://pypi.org/project/" ++ p.name ++
      ")|" ++ commaFormat p.downloads ++ "|[" ++ formatFixed2 p.overall ++
      "/10](https://deps.dev/pypi/" ++ p.name ++ ")|" ++
      pyJoin "|" fields)

/-- The row loop of `write_packages_to_readme` (`main.py` lines 96-103):
each row is written, then the loop breaks once the enumeration index
reaches 999.  Returns the rows written and the first raised error, if
any. -/
def readmeLoop (checkNames : List String) :
    List Package → Nat → List String × Option PyErr
  | [], _ => ([], none)
  | p :: rest, i =>
    match mdRow checkNames p with
    | Except.error e => ([], some e)
    | Except.ok row =>
      if i = 999 then ([row], none)
      else
        match readmeLoop checkNames rest (i + 1) with
        | (rows, err) => (row :: rows, err)

/-- `write_packages_to_readme` (`main.py` lines 80-103): the data rows of
the Markdown table (the static prose header and the table header are
constants and carry no per-package content). -/
def write_packages_to_readme (checkNames : List String) (ps : List Package) :
    List String × Option PyErr :=
  readmeLoop checkNames (sort_packages ps) 0

/-- Number of comma-separated fields of a line: one more than the number
of `','` characters. -/
def fieldCount (s : String) : Nat := s.toList.count ',' + 1

def commaFree (s : String) : Prop := ',' ∉ s.toList

example :
    fill_in_package ["A", "B"] (Package.mk "p" 0 0 [("A", none), ("B", some 6)]) =
    Except.ok (Package.mk "p" 0 3 [("A", none), ("B", some 6)]) := by
  have h : overallOf [("A", none), ("B", some 6)] = 3 := by
    norm_num [overallOf]
  simp [fill_in_package, fillChecks, dictSetdefault, dictGet, h]

example : fieldCount (csvHeader []) = 4 := by decide

/-! ## Dictionary lemmas -/

theorem dictGet_dictSet {α : Type} (m : List (String × α)) (k : String)
    (v : α) (k' : String) :
    dictGet (dictSet m k v) k' = if k = k' then some v else dictGet m k' := by
  induction m with
  | nil => simp [dictSet, dictGet]
  | cons kv rest ih =>
    obtain ⟨k0, v0⟩ := kv
    by_cases h0 : k0 = k
    · subst h0
      by_cases h1 : k0 = k'
      · subst h1; simp [dictSet, dictGet]
      · simp [dictSet, dictGet, h1]
    · by_cases h1 : k0 = k'
      · subst h1
        simp [dictSet, dictGet, h0, Ne.symm h0]
      · simp [dictSet, dictGet, h0, h1, ih]

theorem dictGet_append_left {α : Type} {m₁ : List (String × α)}
    {k : String} {v : α} (m₂ : List (String × α))
    (h : dictGet m₁ k = some v) : dictGet (m₁ ++ m₂) k = some v := by
  induction m₁ with
  | nil => simp [dictGet] at h
  | cons kv rest ih =>
    by_cases h0 : kv.1 = k
    · simp_all [dictGet]
    · simp only [dictGet, h0, if_false] at h ⊢
      exact ih h

theorem dictGet_append_right {α : Type} {m₁ : List (String × α)}
    {k : String} (m₂ : List (String × α))
    (h : dictGet m₁ k = none) : dictGet (m₁ ++ m₂) k = dictGet m₂ k := by
  induction m₁ with
  | nil => simp [dictGet]
  | cons kv rest ih =>
    by_cases h0 : kv.1 = k
    · simp_all [dictGet]
    · simp only [dictGet, h0, if_false] at h ⊢
      exact ih h

theorem dictGet_eq_none_iff {α : Type} (m : List (String × α)) (k : String) :
    dictGet m k = none ↔ k ∉ m.map Prod.fst := by
  induction m with
  | nil => simp [dictGet]
  | cons kv rest ih =>
    by_cases h0 : kv.1 = k
    · simp [dictGet, h0]
    · simp [dictGet, h0, ih, Ne.symm h0]

theorem dictGet_dictSetdefault {α : Type} (m : List (String × α))
    (k : String) (v : α) (k' : String) :
    dictGet (dictSetdefault m k v) k' =
      if k = k' then some ((dictGet m k).getD v) else dictGet m k' := by
  unfold dictSetdefault
  by_cases hk : k = k'
  · subst hk
    match h : dictGet m k with
    | some w => simp [h]
    | none =>
      rw [dictGet_append_right _ h]
      simp [h, dictGet]
  · match h : dictGet m k with
    | some w => simp [h, hk]
    | none =>
      simp only [h, hk, if_false]
      match h' : dictGet m k' with
      | some w => exact dictGet_append_left _ h'
      | none =>
        rw [dictGet_append_right _ h']
        simp [dictGet, fun hh : k = k' => hk hh]

theorem keys_dictSetdefault {α : Type} (m : List (String × α)) (k : String)
    (v : α) :
    (dictSetdefault m k v).map Prod.fst =
      if (dictGet m k).isSome then m.map Prod.fst
      else m.map Prod.fst ++ [k] := by
  unfold dictSetdefault
  match h : dictGet m k with
  | some w => simp [h]
  | none => simp [h]

theorem mem_dictSetdefault {α : Type} {m : List (String × α)} {k : String}
    {v : α} {kv : String × α} (h : kv ∈ dictSetdefault m k v) :
    kv ∈ m ∨ kv = (k, v) := by
  unfold dictSetdefault at h
  match hg : dictGet m k with
  | some w => rw [hg] at h; exact Or.inl h
  | none =>
    rw [hg] at h
    rcases List.mem_append.mp h with h1 | h1
    · exact Or.inl h1
    · simp at h1; exact Or.inr h1

/-! ## `fillChecks` lemmas -/

theorem dictGet_fillChecks (U : List String) (m : Checks) (k : String) :
    dictGet (fillChecks U m) k =
      match dictGet m k with
      | some v => some v
      | none => if k ∈ U then some none else none := by
  induction U generalizing m with
  | nil => simp [fillChecks]; match dictGet m k with | some v => rfl | none => rfl
  | cons n rest ih =>
    show dictGet (fillChecks rest (dictSetdefault m n none)) k = _
    rw [ih]
    rw [dictGet_dictSetdefault]
    by_cases hk : n = k
    · subst hk
      match h : dictGet m n with
      | some v => simp [h]
      | none => simp [h]
    · have hk' : ¬(k = n) := fun hh => hk hh.symm
      match h : dictGet m k with
      | some v => simp [hk, h]
      | none => simp [hk, h, hk']

theorem mem_keys_fillChecks (U : List String) (m : Checks) (k : String) :
    k ∈ (fillChecks U m).map Prod.fst ↔ k ∈ m.map Prod.fst ∨ k ∈ U := by
  constructor
  · intro h
    by_contra hc
    push_neg at hc
    have h0 : dictGet m k = none := (dictGet_eq_none_iff m k).mpr hc.1
    have : dictGet (fillChecks U m) k = none := by
      rw [dictGet_fillChecks, h0]
      simp [hc.2]
    exact ((dictGet_eq_none_iff _ k).mp this) h
  · intro h
    by_contra hc
    have h0 : dictGet (fillChecks U m) k = none :=
      (dictGet_eq_none_iff _ k).mpr hc
    rw [dictGet_fillChecks] at h0
    rcases h with h | h
    · match hm : dictGet m k with
      | some v => rw [hm] at h0; exact Option.noConfusion h0
      | none => exact ((dictGet_eq_none_iff m k).mp hm) h
    · match hm : dictGet m k with
      | some v => rw [hm] at h0; exact Option.noConfusion h0
      | none => rw [hm] at h0; simp [h] at h0

theorem nodup_keys_fillChecks (U : List String) (m : Checks)
    (h : (m.map Prod.fst).Nodup) : ((fillChecks U m).map Prod.fst).Nodup := by
  induction U generalizing m with
  | nil => exact h
  | cons n rest ih =>
    show ((fillChecks rest (dictSetdefault m n none)).map Prod.fst).Nodup
    apply ih
    rw [keys_dictSetdefault]
    match hg : dictGet m n with
    | some w => simp [hg, h]
    | none =>
      simp only [hg, Option.isSome_none, Bool.false_eq_true, if_false]
      have : n ∉ m.map Prod.fst := (dictGet_eq_none_iff m n).mp hg
      simp [List.nodup_append, h, this]

theorem values_fillChecks {U : List String} {m : Checks}
    {kv : String × Option Int} (h : kv ∈ fillChecks U m) :
    kv ∈ m ∨ kv.2 = none := by
  induction U generalizing m with
  | nil => exact Or.inl h
  | cons n rest ih =>
    have h' : kv ∈ fillChecks rest (dictSetdefault m n none) := h
    rcases ih h' with h1 | h1
    · rcases mem_dictSetdefault h1 with h2 | h2
      · exact Or.inl h2
      · subst h2; exact Or.inr rfl
    · exact Or.inr h1

/-! ## `exList` lemmas -/

theorem exList_ok_forall₂ {α β : Type} {f : α → Except PyErr β}
    {l : List α} {bs : List β} (h : exList f l = Except.ok bs) :
    List.Forall₂ (fun a b => f a = Except.ok b) l bs := by
  induction l generalizing bs with
  | nil =>
    simp only [exList] at h
    cases h
    exact List.Forall₂.nil
  | cons a rest ih =>
    simp only [exList] at h
    match hf : f a with
    | Except.error e => rw [hf] at h; exact Except.noConfusion h
    | Except.ok b =>
      rw [hf] at h
      match hr : exList f rest with
      | Except.error e => rw [hr] at h; exact Except.noConfusion h
      | Except.ok bs' =>
        rw [hr] at h
        cases h
        exact List.Forall₂.cons hf (ih hr)

theorem exList_ok_of_forall_ok {α β : Type} {f : α → Except PyErr β}
    {l : List α} (h : ∀ a ∈ l, ∃ b, f a = Except.ok b) :
    ∃ bs, exList f l = Except.ok bs := by
  induction l with
  | nil => exact ⟨[], rfl⟩
  | cons a rest ih =>
    obtain ⟨b, hb⟩ := h a (List.mem_cons_self a rest)
    obtain ⟨bs, hbs⟩ := ih fun a' ha' => h a' (List.mem_cons_of_mem a ha')
    exact ⟨b :: bs, by simp [exList, hb, hbs]⟩

theorem exList_mem_ok {α β : Type} {f : α → Except PyErr β}
    {l : List α} {bs : List β} (h : exList f l = Except.ok bs)
    {b : β} (hb : b ∈ bs) : ∃ a ∈ l, f a = Except.ok b := by
  induction l generalizing bs with
  | nil =>
    simp only [exList] at h
    cases h
    exact absurd hb (List.not_mem_nil b)
  | cons a rest ih =>
    simp only [exList] at h
    match hf : f a with
    | Except.error e => rw [hf] at h; exact Except.noConfusion h
    | Except.ok b0 =>
      rw [hf] at h
      match hr : exList f rest with
      | Except.error e => rw [hr] at h; exact Except.noConfusion h
      | Except.ok bs' =>
        rw [hr] at h
        cases h
        rcases List.mem_cons.mp hb with hb1 | hb1
        · subst hb1; exact ⟨a, List.mem_cons_self a rest, hf⟩
        · obtain ⟨a', ha', hfa'⟩ := ih hr hb1
          exact ⟨a', List.mem_cons_of_mem a ha', hfa'⟩

theorem exList_cons_error {α β : Type} {f : α → Except PyErr β}
    {a : α} {e : PyErr} (l : List α) (h : f a = Except.error e) :
    exList f (a :: l) = Except.error e := by
  simp [exList, h]

/-! ## `checkUnion` lemmas -/

theorem mem_checkUnion (ps : List Package) (n : String) :
    n ∈ checkUnion ps ↔ ∃ p ∈ ps, n ∈ checksKeys p := by
  unfold checkUnion
  rw [List.mem_insertionSort, List.mem_dedup, List.mem_flatten]
  constructor
  · rintro ⟨l, hl, hn⟩
    obtain ⟨p, hp, rfl⟩ := List.mem_map.mp hl
    exact ⟨p, hp, hn⟩
  · rintro ⟨p, hp, hn⟩
    exact ⟨checksKeys p, List.mem_map.mpr ⟨p, hp, rfl⟩, hn⟩

theorem nodup_checkUnion (ps : List Package) : (checkUnion ps).Nodup := by
  unfold checkUnion
  exact (List.perm_insertionSort _ _).nodup_iff.mpr (List.nodup_dedup _)

theorem checksKeys_sub_checkUnion {ps : List Package} {p : Package}
    (hp : p ∈ ps) : checksKeys p ⊆ checkUnion ps := by
  intro n hn
  exact (mem_checkUnion ps n).mpr ⟨p, hp, hn⟩

/-- Under the dict key invariant, filling a package whose keys all come
from `U` makes its key list a permutation of `U`, hence of equal length. -/
theorem length_keys_fillChecks {U : List String} {m : Checks}
    (hm : (m.map Prod.fst).Nodup) (hU : U.Nodup)
    (hsub : m.map Prod.fst ⊆ U) :
    ((fillChecks U m).map Prod.fst).length = U.length := by
  have hperm : List.Perm ((fillChecks U m).map Prod.fst) U := by
    rw [List.perm_ext_iff_of_nodup (nodup_keys_fillChecks U m hm) hU]
    intro a
    rw [mem_keys_fillChecks]
    constructor
    · rintro (h | h)
      · exact hsub h
      · exact h
    · exact fun h => Or.inr h
  exact hperm.length_eq

/-! ## Sum bounds -/

theorem checksSum_nonneg (m : Checks)
    (h : ∀ kv ∈ m, ∀ x : Int, kv.2 = some x → 0 ≤ x) :
    0 ≤ (m.map fun kv => ((kv.2.getD 0 : Int) : ℚ)).sum := by
  induction m with
  | nil => simp
  | cons kv rest ih =>
    simp only [List.map_cons, List.sum_cons]
    have h1 : (0 : ℚ) ≤ ((kv.2.getD 0 : Int) : ℚ) := by
      match hv : kv.2 with
      | none => simp
      | some x =>
        have := h kv (List.mem_cons_self kv rest) x hv
        simp [hv]
        exact_mod_cast this
    have h2 := ih fun kv' hkv' => h kv' (List.mem_cons_of_mem kv hkv')
    linarith

theorem checksSum_le (m : Checks)
    (h : ∀ kv ∈ m, ∀ x : Int, kv.2 = some x → x ≤ 10) :
    (m.map fun kv => ((kv.2.getD 0 : Int) : ℚ)).sum ≤ 10 * m.length := by
  induction m with
  | nil => simp
  | cons kv rest ih =>
    simp only [List.map_cons, List.sum_cons, List.length_cons]
    have h1 : ((kv.2.getD 0 : Int) : ℚ) ≤ 10 := by
      match hv : kv.2 with
      | none => norm_num
      | some x =>
        have := h kv (List.mem_cons_self kv rest) x hv
        simp [hv]
        exact_mod_cast this
    have h2 := ih fun kv' hkv' => h kv' (List.mem_cons_of_mem kv hkv')
    push_cast
    linarith

theorem checksSum_zero (m : Checks) (h : ∀ kv ∈ m, kv.2 = none) :
    (m.map fun kv => ((kv.2.getD 0 : Int) : ℚ)).sum = 0 := by
  induction m with
  | nil => simp
  | cons kv rest ih =>
    simp only [List.map_cons, List.sum_cons]
    rw [h kv (List.mem_cons_self kv rest)]
    rw [ih fun kv' hkv' => h kv' (List.mem_cons_of_mem kv hkv')]
    simp

/-! ## String and digit lemmas -/

theorem toList_append (a b : String) : (a ++ b).toList = a.toList ++ b.toList :=
  String.data_append a b

theorem count_comma_append (a b : String) :
    (a ++ b).toList.count ',' = a.toList.count ',' + b.toList.count ',' := by
  rw [toList_append, List.count_append]

instance (s : String) : Decidable (commaFree s) :=
  inferInstanceAs (Decidable (',' ∉ s.toList))

theorem digitChar_ne_comma (d : Nat) : digitChar d ≠ ',' := by
  unfold digitChar
  split <;> decide

theorem natToDigitsRevAux_comma (n fuel : Nat) :
    ',' ∉ natToDigitsRevAux n fuel := by
  induction fuel generalizing n with
  | zero => simp [natToDigitsRevAux]
  | succ fuel ih =>
    unfold natToDigitsRevAux
    by_cases h : n < 10
    · simp only [h, if_true, List.mem_singleton]
      exact fun hc => digitChar_ne_comma n hc.symm
    · simp only [h, if_false, List.mem_cons]
      rintro (hc | hc)
      · exact digitChar_ne_comma (n % 10) hc.symm
      · exact ih (n / 10) hc

theorem commaFree_natToDecimal (n : Nat) : commaFree (natToDecimal n) := by
  intro hc
  have hc' : ',' ∈ (natToDigitsRev n).reverse := hc
  rw [List.mem_reverse] at hc'
  exact natToDigitsRevAux_comma n (n + 1) hc'

theorem commaFree_append {a b : String} (ha : commaFree a)
    (hb : commaFree b) : commaFree (a ++ b) := by
  unfold commaFree at *
  rw [toList_append]
  intro hc
  rcases List.mem_append.mp hc with h | h
  · exact ha h
  · exact hb h

theorem commaFree_intToDecimal (i : Int) : commaFree (intToDecimal i) := by
  unfold intToDecimal
  by_cases h : i < 0
  · simp only [h, if_true]
    exact commaFree_append (by decide) (commaFree_natToDecimal _)
  · simp only [h, if_false]
    exact commaFree_append (by decide) (commaFree_natToDecimal _)

theorem commaFree_formatFixed2 (q : ℚ) : commaFree (formatFixed2 q) := by
  unfold formatFixed2
  refine commaFree_append (commaFree_append (commaFree_append
    (commaFree_append ?_ (commaFree_natToDecimal _)) (by decide))
    (commaFree_natToDecimal _)) (commaFree_natToDecimal _)
  by_cases h : round (q * 100) < 0
  · simp only [h, if_true]; decide
  · simp only [h, if_false]; decide

theorem count_comma_pyJoin (xs : List String) (hne : xs ≠ [])
    (hfree : ∀ x ∈ xs, commaFree x) :
    (pyJoin "," xs).toList.count ',' = xs.length - 1 := by
  induction xs with
  | nil => exact absurd rfl hne
  | cons x rest ih =>
    match rest with
    | [] =>
      have : (pyJoin "," [x]).toList.count ',' = 0 := by
        simp only [pyJoin]
        exact List.count_eq_zero.mpr (hfree x (List.mem_singleton.mpr rfl))
      simpa using this
    | y :: rest' =>
      show ((x ++ "," ++ pyJoin "," (y :: rest')).toList.count ',' = _)
      rw [count_comma_append, count_comma_append]
      rw [ih (by simp) fun z hz => hfree z (List.mem_cons_of_mem x hz)]
      have hx : x.toList.count ',' = 0 :=
        List.count_eq_zero.mpr (hfree x (List.mem_cons_self x _))
      have hc : (",").toList.count ',' = 1 := by decide
      rw [hx, hc]
      simp [List.length_cons]
      omega

theorem fieldCount_pyJoin (xs : List String) (hne : xs ≠ [])
    (hfree : ∀ x ∈ xs, commaFree x) :
    fieldCount (pyJoin "," xs) = xs.length := by
  unfold fieldCount
  rw [count_comma_pyJoin xs hne hfree]
  match xs with
  | [] => exact absurd rfl hne
  | x :: rest => simp

/-! ## Sort-key lemmas -/

theorem sortKey_eq_name {a b : Package} (h : sortKey a = sortKey b) :
    a.name = b.name :=
  congrArg (fun x => (ofLex (ofLex x).2).2) h

theorem keyLt_total_of_ne_name {a b : Package} (h : a.name ≠ b.name) :
    keyLt a b ∨ keyLt b a := by
  have hne : sortKey a ≠ sortKey b := fun hk => h (sortKey_eq_name hk)
  rcases lt_or_gt_of_ne hne with h1 | h1
  · exact Or.inl h1
  · exact Or.inr h1

/-! ## Claims -/

/-- C1, counterexample: a catalog response with HTTP status 500 whose body
parses to `{"rows": []}` does **not** abort the run — `main` never reads
`resp.status` for the catalog fetch, so the claim "for every non-200
catalog response the program aborts" is false. -/
theorem claim_C1_counterexample :
    catalogPhase 500 (some (Json.obj [("rows", Json.arr [])])) =
      Except.ok [] ∧ (500 : Nat) ≠ 200 :=
  ⟨rfl, by decide⟩

/-- C1 (amended): the catalog phase is status-blind — its outcome depends
only on the response body.  The run aborts when the body is unparsable
JSON (`json.loads` raises) or lacks a `"rows"` key, regardless of the HTTP
status; a non-200 response with a well-formed body proceeds. -/
theorem claim_C1 (s s' : Nat) (body : Option Json) :
    catalogPhase s body = catalogPhase s' body
    ∧ catalogPhase s none = Except.error PyErr.jsonDecodeError
    ∧ (∀ data, body = some data →
        getItem data "rows" = Except.error PyErr.keyError →
        catalogPhase s body = Except.error PyErr.keyError) := by
  refine ⟨rfl, rfl, ?_⟩
  rintro data rfl h
  show (match getItem data "rows" with
        | Except.error e => Except.error e
        | Except.ok rows => iterElems rows) = Except.error PyErr.keyError
  rw [h]

theorem claim_C1_witness :
    catalogPhase 404 (some (Json.obj [])) = Except.error PyErr.keyError :=
  (claim_C1 404 200 (some (Json.obj []))).2.2 (Json.obj []) rfl rfl

/-- C2, counterexample: a 200 response whose body is not valid JSON makes
`fetch_checks_for_package` raise `json.JSONDecodeError` (line 34 runs
*before* the `try` block), so "malformed JSON … is caught inside that
call" is false: the exception propagates and aborts the batch when the
worker results are drained. -/
theorem claim_C2_counterexample :
    fetch_checks_for_package 200 none [] =
      Except.error PyErr.jsonDecodeError := rfl

/-- C2 (amended): for a 200 response with a *parsable* body, a `KeyError`
or `IndexError` raised while traversing the parsed structure is caught and
the call returns normally with whatever merges were already made; an
error-free traversal also returns normally; but an unparsable body raises
`json.JSONDecodeError`, which is not caught. -/
theorem claim_C2 (data : Json) (checks0 m : Checks) (e : PyErr) :
    fetch_checks_for_package 200 none checks0 =
      Except.error PyErr.jsonDecodeError
    ∧ (runTry data checks0 = (m, some e) →
        e = PyErr.keyError ∨ e = PyErr.indexError →
        fetch_checks_for_package 200 (some data) checks0 = Except.ok m)
    ∧ (runTry data checks0 = (m, none) →
        fetch_checks_for_package 200 (some data) checks0 = Except.ok m) := by
  have hred : fetch_checks_for_package 200 (some data) checks0 =
      match runTry data checks0 with
      | (m2, none) => Except.ok m2
      | (m2, some PyErr.keyError) => Except.ok m2
      | (m2, some PyErr.indexError) => Except.ok m2
      | (_, some e2) => Except.error e2 := by
    unfold fetch_checks_for_package
    rw [if_neg (fun hh : (200 : Nat) ≠ 200 => hh rfl)]
  refine ⟨rfl, ?_, ?_⟩
  · intro h he
    rw [hred, h]
    rcases he with rfl | rfl <;> rfl
  · intro h
    rw [hred, h]

theorem claim_C2_witness :
    fetch_checks_for_package 200 (some (Json.obj [("version", Json.obj [])]))
      [] = Except.ok [] :=
  (claim_C2 (Json.obj [("version", Json.obj [])]) [] [] PyErr.keyError).2.1
    rfl (Or.inl rfl)

/-- A well-formed scorecard check object `{"name": …, "score": …}`. -/
def mkCheck (name : String) (score : Int) : Json :=
  Json.obj [("name", Json.str name), ("score", Json.num score)]

/-- C3: the per-check merge is max-of-existing-and-new and
order-independent.  Scores 4 and 7 for the same check, processed in either
order, leave 7 stored; one well-formed check object reduces to
`mergeCheck`; a stored score is never lowered by a merge; and a negative
reported score never changes the map (so is never stored and never
overwrites). -/
theorem claim_C3 (m : Checks) (name n : String) (score v : Int) :
    (processChecks [mkCheck "N" 4, mkCheck "N" 7] [] = ([("N", some 7)], none)
      ∧ processChecks [mkCheck "N" 7, mkCheck "N" 4] [] = ([("N", some 7)], none))
    ∧ processChecks [mkCheck name score] m = (mergeCheck m name score, none)
    ∧ (dictGet m n = some (some v) →
        ∃ w, dictGet (mergeCheck m name score) n = some (some w) ∧ v ≤ w)
    ∧ (score < 0 → mergeCheck m name score = m) := by
  refine ⟨⟨rfl, rfl⟩, rfl, ?_, ?_⟩
  · intro hv
    unfold mergeCheck
    by_cases h0 : score < 0
    · rw [if_pos h0]
      exact ⟨v, hv, le_refl v⟩
    · rw [if_neg h0]
      by_cases hn : name = n
      · subst hn
        have hred : ((dictGet m name).join.getD 0 : Int) = v := by
          rw [hv]; rfl
        rw [hred]
        by_cases h1 : v > score
        · rw [if_pos h1]
          exact ⟨v, hv, le_refl v⟩
        · rw [if_neg h1]
          refine ⟨score, ?_, by omega⟩
          rw [dictGet_dictSet]
          simp
      · by_cases h1 : ((dictGet m name).join.getD 0 : Int) > score
        · rw [if_pos h1]
          exact ⟨v, hv, le_refl v⟩
        · rw [if_neg h1]
          refine ⟨v, ?_, le_refl v⟩
          rw [dictGet_dictSet]
          simp [hn, hv]
  · intro h0
    unfold mergeCheck
    rw [if_pos h0]

theorem claim_C3_witness :
    (∃ w, dictGet (mergeCheck [("X", some 5)] "X" 9) "X" = some (some w)
      ∧ (5 : Int) ≤ w)
    ∧ mergeCheck [("X", some 5)] "X" (-1) = [("X", some 5)] :=
  ⟨(claim_C3 [("X", some 5)] "X" "X" 9 5).2.2.1 rfl,
   (claim_C3 [("X", some 5)] "X" "X" (-1) 5).2.2.2 (by decide)⟩

/-- Characterization of a successful `fill_in_package`. -/
theorem fill_in_package_ok {U : List String} {p q : Package}
    (h : fill_in_package U p = Except.ok q) :
    q.name = p.name ∧ q.downloads = p.downloads
    ∧ q.checks = fillChecks U p.checks
    ∧ q.overall = overallOf q.checks
    ∧ q.checks.length ≠ 0 := by
  simp only [fill_in_package] at h
  split at h
  next h0 => exact Except.noConfusion h
  next h0 =>
    cases h
    exact ⟨rfl, rfl, rfl, rfl, h0⟩

/-- Per-package content of the fill-in phase, given the union and the
dict-key invariants. -/
theorem fill_in_package_spec {U : List String} {p q : Package}
    (hnd : (checksKeys p).Nodup) (hUnd : U.Nodup)
    (hsub : checksKeys p ⊆ U)
    (h : fill_in_package U p = Except.ok q) :
    (∀ k, k ∈ checksKeys q ↔ k ∈ U)
    ∧ q.checks.length = U.length
    ∧ (∀ n v, dictGet p.checks n = some v → dictGet q.checks n = some v)
    ∧ (∀ n ∈ U, dictGet p.checks n = none → dictGet q.checks n = some none) := by
  obtain ⟨-, -, hch, -, -⟩ := fill_in_package_ok h
  refine ⟨?_, ?_, ?_, ?_⟩
  · intro k
    unfold checksKeys
    rw [hch, mem_keys_fillChecks]
    constructor
    · rintro (h1 | h1)
      · exact hsub h1
      · exact h1
    · exact fun h1 => Or.inr h1
  · have := length_keys_fillChecks hnd hUnd hsub
    rw [List.length_map] at this
    rw [hch, this]
  · intro n v hv
    rw [hch, dictGet_fillChecks, hv]
  · intro n hn hv
    rw [hch, dictGet_fillChecks, hv]
    simp [hn]

/-- C4: after `fill_in_missing_checks` runs with the global check-name
union, every package's check map has exactly the union's key set (hence
`len(package.checks) == len(global_check_union)`), names already present
keep their recorded value, and only absent names are inserted with the
explicit `None` marker. -/
theorem claim_C4 (ps qs : List Package)
    (hnd : ∀ p ∈ ps, (checksKeys p).Nodup)
    (h : fill_in_missing_checks (checkUnion ps) ps = Except.ok qs) :
    List.Forall₂ (fun p q =>
      (∀ k, k ∈ checksKeys q ↔ k ∈ checkUnion ps)
      ∧ q.checks.length = (checkUnion ps).length
      ∧ (∀ n v, dictGet p.checks n = some v → dictGet q.checks n = some v)
      ∧ (∀ n ∈ checkUnion ps, dictGet p.checks n = none →
          dictGet q.checks n = some none)) ps qs := by
  have h2 := exList_ok_forall₂ h
  have main : ∀ (l l' : List Package), (∀ p ∈ l, p ∈ ps) →
      List.Forall₂ (fun p q =>
        fill_in_package (checkUnion ps) p = Except.ok q) l l' →
      List.Forall₂ (fun p q =>
        (∀ k, k ∈ checksKeys q ↔ k ∈ checkUnion ps)
        ∧ q.checks.length = (checkUnion ps).length
        ∧ (∀ n v, dictGet p.checks n = some v → dictGet q.checks n = some v)
        ∧ (∀ n ∈ checkUnion ps, dictGet p.checks n = none →
            dictGet q.checks n = some none)) l l' := by
    intro l l' hmem hf
    induction hf with
    | nil => exact List.Forall₂.nil
    | @cons a b l₁ l₂ hab _ ih =>
      have ha : a ∈ ps := hmem a (List.mem_cons_self a l₁)
      refine List.Forall₂.cons ?_
        (ih fun p hp => hmem p (List.mem_cons_of_mem a hp))
      exact fill_in_package_spec (hnd a ha) (nodup_checkUnion ps)
        (checksKeys_sub_checkUnion ha) hab
  exact main ps qs (fun _ hp => hp) h2

/-- Example package from the spec's testable property:
`checks={"A": None, "B": 6}` with union `{"A","B"}`. -/
def pkgEx : Package := Package.mk "p" 0 0 [("A", none), ("B", some 6)]

def pkgExFilled : Package := Package.mk "p" 0 3 [("A", none), ("B", some 6)]

theorem fill_pkgEx : fill_in_package ["A", "B"] pkgEx = Except.ok pkgExFilled := by
  have h : overallOf [("A", none), ("B", some 6)] = 3 := by
    norm_num [overallOf]
  simp [pkgEx, pkgExFilled, fill_in_package, fillChecks, dictSetdefault,
    dictGet, h]

/-- C5: the overall score computed by the fill-in phase is the mean of the
package's check values with `None` counted as `0.0`; it lies in `[0, 10]`
whenever every present score does; and for union `{"A","B"}` with
`checks={"A": None, "B": 6}` the overall is `3.0`. -/
theorem claim_C5 (U : List String) (p q : Package)
    (h : fill_in_package U p = Except.ok q)
    (hb : ∀ kv ∈ q.checks, ∀ x : Int, kv.2 = some x → 0 ≤ x ∧ x ≤ 10) :
    q.overall = (q.checks.map fun kv => ((kv.2.getD 0 : Int) : ℚ)).sum
        / (q.checks.length : ℚ)
    ∧ 0 ≤ q.overall ∧ q.overall ≤ 10
    ∧ fill_in_package ["A", "B"] pkgEx = Except.ok pkgExFilled := by
  obtain ⟨-, -, -, hov, hlen⟩ := fill_in_package_ok h
  have hlen' : 0 < (q.checks.length : ℚ) := by
    have : 0 < q.checks.length := Nat.pos_of_ne_zero hlen
    exact_mod_cast this
  refine ⟨by rw [hov]; rfl, ?_, ?_, fill_pkgEx⟩
  · rw [hov]
    exact div_nonneg
      (checksSum_nonneg q.checks fun kv hkv x hx => (hb kv hkv x hx).1)
      (le_of_lt hlen')
  · rw [hov]
    show (q.checks.map fun kv => ((kv.2.getD 0 : Int) : ℚ)).sum
        / (q.checks.length : ℚ) ≤ 10
    rw [div_le_iff₀ hlen']
    exact checksSum_le q.checks fun kv hkv x hx => (hb kv hkv x hx).2

theorem claim_C5_witness :
    pkgExFilled.overall = (pkgExFilled.checks.map
        fun kv => ((kv.2.getD 0 : Int) : ℚ)).sum / (pkgExFilled.checks.length : ℚ)
    ∧ 0 ≤ pkgExFilled.overall ∧ pkgExFilled.overall ≤ 10 := by
  have hb : ∀ kv ∈ pkgExFilled.checks, ∀ x : Int,
      kv.2 = some x → 0 ≤ x ∧ x ≤ 10 := by
    intro kv hkv x hx
    have hm : kv = ("A", none) ∨ kv = ("B", some 6) := by
      simpa [pkgExFilled] using hkv
    rcases hm with rfl | rfl
    · simp at hx
    · have h6 : (6 : Int) = x := by injection hx
      omega
  have h := claim_C5 ["A", "B"] pkgEx pkgExFilled fill_pkgEx hb
  exact ⟨h.1, h.2.1, h.2.2.1⟩

/-- A one-check package used for concrete witnesses (a one-element union
evaluates without any string-order comparisons). -/
def pkgW : Package := Package.mk "w" 1 0 [("A", some 5)]

def pkgWFilled : Package := Package.mk "w" 1 5 [("A", some 5)]

theorem fill_pkgW : fill_in_package ["A"] pkgW = Except.ok pkgWFilled := by
  have h : overallOf [("A", some 5)] = 5 := by norm_num [overallOf]
  simp [pkgW, pkgWFilled, fill_in_package, fillChecks, dictSetdefault,
    dictGet, h]

theorem claim_C4_witness :
    pkgWFilled.checks.length = (checkUnion [pkgW]).length := by
  have hnd : ∀ p ∈ [pkgW], (checksKeys p).Nodup := by decide
  have hu : checkUnion [pkgW] = ["A"] := rfl
  have h : fill_in_missing_checks (checkUnion [pkgW]) [pkgW] =
      Except.ok [pkgWFilled] := by
    rw [hu]
    show exList (fill_in_package ["A"]) [pkgW] = Except.ok [pkgWFilled]
    simp [exList, fill_pkgW]
  have h4 := claim_C4 [pkgW] [pkgWFilled] hnd h
  cases h4 with
  | cons hpq _ => exact hpq.2.1

/-- The spec's sorting example: A:(overall 8, downloads 100),
B:(8, 50), C:(5, 1000). -/
def pkgA6 : Package := Package.mk "A" 100 8 []

def pkgB6 : Package := Package.mk "B" 50 8 []

def pkgC6 : Package := Package.mk "C" 1000 5 []

/-- C6: `sort_packages` orders by the key `(-overall, -downloads, name)`:
the output is a permutation of the input sorted along the key order; any
two packages with distinct names are strictly comparable (total order);
and `{A:(8,100), B:(8,50), C:(5,1000)}` sorts to `A, B, C`. -/
theorem claim_C6 (ps : List Package) (a b : Package)
    (hab : a.name ≠ b.name) :
    List.Perm (sort_packages ps) ps
    ∧ List.Sorted keyLe (sort_packages ps)
    ∧ (keyLt a b ∨ keyLt b a)
    ∧ sort_packages [pkgC6, pkgA6, pkgB6] = [pkgA6, pkgB6, pkgC6] :=
  ⟨List.perm_insertionSort keyLe ps,
   List.sorted_insertionSort keyLe ps,
   keyLt_total_of_ne_name hab,
   by decide⟩

theorem claim_C6_witness : keyLt pkgA6 pkgB6 ∨ keyLt pkgB6 pkgA6 :=
  (claim_C6 [] pkgA6 pkgB6 (by decide)).2.2.1

theorem readmeLoop_length_le (cn : List String) (l : List Package)
    (i : Nat) (hi : i ≤ 999) : (readmeLoop cn l i).1.length ≤ 1000 - i := by
  induction l generalizing i with
  | nil => simp [readmeLoop]
  | cons p rest ih =>
    unfold readmeLoop
    match mdRow cn p with
    | Except.error e => simp
    | Except.ok row =>
      by_cases h9 : i = 999
      · subst h9; simp
      · have h1 : i + 1 ≤ 999 := by omega
        have h2 := ih (i + 1) h1
        simp only [h9, if_false]
        rcases hrr : readmeLoop cn rest (i + 1) with ⟨rows, err⟩
        rw [hrr] at h2
        show (row :: rows).length ≤ 1000 - i
        simp only [List.length_cons]
        simp only [List.length] at h2
        omega

theorem readmeLoop_eq_take (cn : List String) (l : List Package)
    (i : Nat) (rows : List String) (hi : i ≤ 999)
    (h : exList (mdRow cn) (l.take (1000 - i)) = Except.ok rows) :
    readmeLoop cn l i = (rows, none) := by
  induction l generalizing i rows with
  | nil =>
    simp only [List.take_nil, exList] at h
    cases h
    rfl
  | cons p rest ih =>
    have htake : (p :: rest).take (1000 - i) = p :: rest.take (999 - i) := by
      have : 1000 - i = (999 - i) + 1 := by omega
      rw [this, List.take_succ_cons]
    rw [htake] at h
    simp only [exList] at h
    match hrow : mdRow cn p with
    | Except.error e => rw [hrow] at h; exact Except.noConfusion h
    | Except.ok row =>
      rw [hrow] at h
      match hrest : exList (mdRow cn) (rest.take (999 - i)) with
      | Except.error e => rw [hrest] at h; exact Except.noConfusion h
      | Except.ok rows' =>
        rw [hrest] at h
        cases h
        unfold readmeLoop
        rw [hrow]
        by_cases h9 : i = 999
        · subst h9
          simp only [if_pos rfl]
          have : (999 : Nat) - 999 = 0 := by omega
          rw [this, List.take_zero] at hrest
          simp only [exList] at hrest
          cases hrest
          rfl
        · have h1 : i + 1 ≤ 999 := by omega
          have h2 : 999 - i = 1000 - (i + 1) := by omega
          rw [h2] at hrest
          rw [ih (i + 1) rows' h1 hrest]
          simp [h9]

/-- C7: the Markdown writer emits at most 1000 data rows, and whenever the
first 1000 sorted packages all render, the rows written are exactly those
1000 rows in sort order (hard truncation of anything beyond). -/
theorem claim_C7 (cn : List String) (ps : List Package) :
    (write_packages_to_readme cn ps).1.length ≤ 1000
    ∧ (∀ rows, exList (mdRow cn) ((sort_packages ps).take 1000) =
          Except.ok rows →
        write_packages_to_readme cn ps = (rows, none)) := by
  constructor
  · have := readmeLoop_length_le cn (sort_packages ps) 0 (by omega)
    simpa [write_packages_to_readme] using this
  · intro rows h
    exact readmeLoop_eq_take cn (sort_packages ps) 0 rows (by omega) h

/-- Evaluation rule for `formatFixed2` when the scaled value is a natural
number literal. -/
theorem formatFixed2_of_natCast (q : ℚ) (n : Nat) (h : q * 100 = (n : ℚ)) :
    formatFixed2 q = natToDecimal (n / 100) ++ "." ++
      natToDecimal (n % 100 / 10) ++ natToDecimal (n % 100 % 10) := by
  unfold formatFixed2
  rw [h, round_natCast]
  have h0 : ¬((n : Int) < 0) := by omega
  show (if (n : Int) < 0 then "-" else "") ++
      natToDecimal ((n : Int).natAbs / 100) ++ "." ++
      natToDecimal ((n : Int).natAbs % 100 / 10) ++
      natToDecimal ((n : Int).natAbs % 100 % 10) = _
  rw [if_neg h0]
  simp only [Int.natAbs_ofNat]
  rfl

theorem formatFixed2_zero : formatFixed2 (0 : ℚ) = "0.00" := by
  rw [formatFixed2_of_natCast 0 0 (by norm_num)]
  decide

theorem claim_C7_witness :
    write_packages_to_readme ["A"] [pkgEx] =
      (["[p](https://pypi.org/project/p)|0|[0.00/10](https://deps.dev/pypi/p)|â€“"],
        none) := by
  have hrow : mdRow ["A"] pkgEx = Except.ok
      ("[" ++ "p" ++ "](https://pypi.org/project/" ++ "p" ++ ")|" ++
        commaFormat 0 ++ "|[" ++ formatFixed2 0 ++
        "/10](https://deps.dev/pypi/" ++ "p" ++ ")|" ++
        pyJoin "|" ["â€“"]) := rfl
  rw [formatFixed2_zero] at hrow
  have hrow' : mdRow ["A"] pkgEx = Except.ok
      "[p](https://pypi.org/project/p)|0|[0.00/10](https://deps.dev/pypi/p)|â€“" := by
    rw [hrow]
    rfl
  have hrows : exList (mdRow ["A"]) ((sort_packages [pkgEx]).take 1000) =
      Except.ok
        ["[p](https://pypi.org/project/p)|0|[0.00/10](https://deps.dev/pypi/p)|â€“"] := by
    show exList (mdRow ["A"]) [pkgEx] = _
    simp [exList, hrow']
  exact (claim_C7 ["A"] [pkgEx]).2 _ hrows

/-- A field rendered by the CSV writer is comma-free. -/
theorem checkField_ok_commaFree {p : Package} {n : String} {f : String}
    (h : checkField p "" n = Except.ok f) : commaFree f := by
  unfold checkField at h
  match hg : dictGet p.checks n with
  | none => rw [hg] at h; exact Except.noConfusion h
  | some v =>
    rw [hg] at h
    cases h
    match v with
    | none => decide
    | some x => exact commaFree_intToDecimal x

theorem fieldCount_csvHeader {cn : List String} (hcn : cn ≠ [])
    (hfree : ∀ n ∈ cn, commaFree n) :
    fieldCount (csvHeader cn) = 3 + cn.length := by
  unfold fieldCount csvHeader
  rw [count_comma_append, count_comma_pyJoin cn hcn hfree]
  have h3 : ("Package,Downloads,Overall,").toList.count ',' = 3 := by decide
  rw [h3]
  have : 1 ≤ cn.length := by
    match cn with
    | [] => exact absurd rfl hcn
    | x :: rest => simp
  omega

theorem fieldCount_csvRow {cn : List String} {p : Package} {r : String}
    (hcn : cn ≠ []) (hname : commaFree p.name)
    (h : csvRow cn p = Except.ok r) :
    fieldCount r = 3 + cn.length := by
  unfold csvRow at h
  match hex : exList (checkField p "") cn with
  | Except.error e => rw [hex] at h; exact Except.noConfusion h
  | Except.ok fields =>
    rw [hex] at h
    cases h
    have hlen : fields.length = cn.length :=
      ((exList_ok_forall₂ hex).length_eq).symm
    have hne : fields ≠ [] := by
      intro h0
      rw [h0] at hlen
      match cn with
      | [] => exact hcn rfl
      | x :: rest => simp at hlen
    have hffree : ∀ f ∈ fields, commaFree f := by
      intro f hf
      obtain ⟨n, -, hn⟩ := exList_mem_ok hex hf
      exact checkField_ok_commaFree hn
    unfold fieldCount
    rw [count_comma_append, count_comma_append, count_comma_append,
      count_comma_append, count_comma_append, count_comma_append]
    rw [count_comma_pyJoin fields hne hffree]
    have e1 : p.name.toList.count ',' = 0 := List.count_eq_zero.mpr hname
    have e2 : (intToDecimal p.downloads).toList.count ',' = 0 :=
      List.count_eq_zero.mpr (commaFree_intToDecimal p.downloads)
    have e3 : (formatFixed2 p.overall).toList.count ',' = 0 :=
      List.count_eq_zero.mpr (commaFree_formatFixed2 p.overall)
    have e4 : (",").toList.count ',' = 1 := by decide
    rw [e1, e2, e3, e4]
    have : 1 ≤ fields.length := by
      match fields with
      | [] => exact absurd rfl hne
      | x :: rest => simp
    omega

/-- C8, counterexample: with an empty check union the header line has 4
comma-separated columns, not `3 + 0` (the f-string leaves a trailing
comma); and a package name containing a comma shifts every count, so the
claim's "for every package set and every check union" is false. -/
theorem claim_C8_counterexample :
    (fieldCount (csvHeader []) = 4 ∧ 3 + ([] : List String).length ≠ 4)
    ∧ (csvRow ["C"] (Package.mk "a,b" 0 0 [("C", some 5)]) =
          Except.ok "a,b,0,0.00,5"
        ∧ fieldCount "a,b,0,0.00,5" = 5 ∧ 3 + (["C"] : List String).length ≠ 5) := by
  refine ⟨⟨by decide, by decide⟩, ?_, by decide, by decide⟩
  have h : csvRow ["C"] (Package.mk "a,b" 0 0 [("C", some 5)]) =
      Except.ok ("a,b" ++ "," ++ intToDecimal 0 ++ "," ++ formatFixed2 0 ++
        "," ++ pyJoin "," [intToDecimal 5]) := rfl
  rw [h, formatFixed2_zero]
  rfl

/-- C8 (amended): when the check union is non-empty and neither the check
names nor the package names contain a comma, the CSV header has exactly
`3 + len(check_union)` comma-separated columns and every data row has
exactly that same number of fields. -/
theorem claim_C8 (cn : List String) (ps : List Package)
    (lines : List String) (hcn : cn ≠ [])
    (hfree : ∀ n ∈ cn, commaFree n)
    (hnames : ∀ p ∈ ps, commaFree p.name)
    (h : write_packages_to_csv cn ps = Except.ok lines) :
    lines.head? = some (csvHeader cn)
    ∧ ∀ line ∈ lines, fieldCount line = 3 + cn.length := by
  unfold write_packages_to_csv at h
  match hex : exList (csvRow cn) (sort_packages ps) with
  | Except.error e => rw [hex] at h; exact Except.noConfusion h
  | Except.ok rows =>
    rw [hex] at h
    cases h
    refine ⟨rfl, ?_⟩
    intro line hline
    rcases List.mem_cons.mp hline with rfl | hline
    · exact fieldCount_csvHeader hcn hfree
    · obtain ⟨p, hp, hrow⟩ := exList_mem_ok hex hline
      have hp' : p ∈ ps := (List.mem_insertionSort keyLe).mp hp
      exact fieldCount_csvRow hcn (hnames p hp') hrow

theorem claim_C8_witness :
    write_packages_to_csv ["A"] [pkgW] = Except.ok ["Package,Downloads,Overall,A", "w,1,0.00,5"]
    ∧ (["Package,Downloads,Overall,A", "w,1,0.00,5"].head? =
        some (csvHeader ["A"]))
    ∧ ∀ line ∈ ["Package,Downloads,Overall,A", "w,1,0.00,5"],
        fieldCount line = 3 + (["A"] : List String).length := by
  have hrow : csvRow ["A"] pkgW = Except.ok
      ("w" ++ "," ++ intToDecimal 1 ++ "," ++ formatFixed2 0 ++ "," ++
        pyJoin "," [intToDecimal 5]) := rfl
  rw [formatFixed2_zero] at hrow
  have hrow' : csvRow ["A"] pkgW = Except.ok "w,1,0.00,5" := by
    rw [hrow]; rfl
  have h : write_packages_to_csv ["A"] [pkgW] =
      Except.ok ["Package,Downloads,Overall,A", "w,1,0.00,5"] := by
    unfold write_packages_to_csv
    have hex : exList (csvRow ["A"]) (sort_packages [pkgW]) =
        Except.ok ["w,1,0.00,5"] := by
      show exList (csvRow ["A"]) [pkgW] = _
      simp [exList, hrow']
    rw [hex]
    rfl
  have hmain := claim_C8 ["A"] [pkgW] ["Package,Downloads,Overall,A", "w,1,0.00,5"]
    (by decide) (by decide) (by decide) h
  exact ⟨h, hmain.1, hmain.2⟩

/-- With a non-empty union, filling a package always succeeds (the
denominator is at least the union's size). -/
theorem fill_in_package_ok_of_ne_nil {U : List String} (hU : U ≠ [])
    (p : Package) : ∃ q, fill_in_package U p = Except.ok q := by
  have hlen : (fillChecks U p.checks).length ≠ 0 := by
    obtain ⟨n, hn⟩ := List.exists_mem_of_ne_nil U hU
    have hmem : n ∈ (fillChecks U p.checks).map Prod.fst :=
      (mem_keys_fillChecks U p.checks n).mpr (Or.inr hn)
    intro h0
    rw [List.eq_nil_of_length_eq_zero h0] at hmem
    simp at hmem
  refine ⟨Package.mk p.name p.downloads
    (overallOf (fillChecks U p.checks)) (fillChecks U p.checks), ?_⟩
  simp only [fill_in_package]
  rw [if_neg hlen]

/-- C9: a package whose scorecard fetch returns a non-200 status keeps its
(empty) check map untouched, and after the fill-in phase with the global
union every union name maps to the explicit `None` marker and the overall
score is `0.0`. -/
theorem claim_C9 (status : Nat) (hs : status ≠ 200) (body : Option Json)
    (U : List String) (hU : U ≠ []) (name : String) (dl : Int) :
    fetch_checks_for_package status body [] = Except.ok []
    ∧ ∃ q, fill_in_package U (Package.mk name dl 0 []) = Except.ok q
        ∧ (∀ n ∈ U, dictGet q.checks n = some none)
        ∧ q.overall = 0 := by
  constructor
  · unfold fetch_checks_for_package
    rw [if_pos hs]
  · obtain ⟨q, hq⟩ := fill_in_package_ok_of_ne_nil hU (Package.mk name dl 0 [])
    obtain ⟨-, -, hch, hov, -⟩ := fill_in_package_ok hq
    refine ⟨q, hq, ?_, ?_⟩
    · intro n hn
      rw [hch]
      show dictGet (fillChecks U []) n = some none
      rw [dictGet_fillChecks]
      simp [dictGet, hn]
    · rw [hov]
      unfold overallOf
      rw [checksSum_zero _ ?_]
      · exact zero_div _
      · intro kv hkv
        rw [hch] at hkv
        have hkv' : kv ∈ fillChecks U [] := hkv
        have := values_fillChecks hkv'
        rcases this with h1 | h1
        · exact absurd h1 (List.not_mem_nil kv)
        · exact h1

theorem claim_C9_witness :
    fetch_checks_for_package 404 none [] = Except.ok []
    ∧ ∃ q, fill_in_package ["A"] (Package.mk "w" 0 0 []) = Except.ok q
        ∧ (∀ n ∈ (["A"] : List String), dictGet q.checks n = some none)
        ∧ q.overall = 0 :=
  claim_C9 404 (by decide) none ["A"] (by decide) "w" 0

/-- C10 (implicit): `fill_in_missing_checks` divides by the (filled) check
count, which equals the global union size; with at least one package and
an empty union the denominator is zero and the pass raises
`ZeroDivisionError`, so the overall-score computation is defined exactly
when the union is non-empty or the package set is empty. -/
theorem claim_C10 (ps : List Package) :
    (ps ≠ [] → checkUnion ps = [] →
      fill_in_missing_checks (checkUnion ps) ps =
        Except.error PyErr.zeroDivisionError)
    ∧ (checkUnion ps ≠ [] →
      ∃ qs, fill_in_missing_checks (checkUnion ps) ps = Except.ok qs)
    ∧ (ps = [] → fill_in_missing_checks (checkUnion ps) ps = Except.ok []) := by
  refine ⟨?_, ?_, ?_⟩
  · intro hne hU
    match ps, hne with
    | p :: rest, _ =>
      have hsub := checksKeys_sub_checkUnion (List.mem_cons_self p rest)
      rw [hU] at hsub
      have hkeys : checksKeys p = [] :=
        List.eq_nil_iff_forall_not_mem.mpr
          fun a ha => (List.not_mem_nil a) (hsub ha)
      have hchecks : p.checks = [] := by
        unfold checksKeys at hkeys
        exact List.map_eq_nil_iff.mp hkeys
      rw [hU]
      unfold fill_in_missing_checks
      apply exList_cons_error
      simp [fill_in_package, fillChecks, hchecks]
  · intro hU
    exact exList_ok_of_forall_ok
      fun p _ => fill_in_package_ok_of_ne_nil hU p
  · rintro rfl
    rfl

theorem claim_C10_witness :
    fill_in_missing_checks (checkUnion [Package.mk "e" 0 0 []])
        [Package.mk "e" 0 0 []] = Except.error PyErr.zeroDivisionError
    ∧ ∃ qs, fill_in_missing_checks (checkUnion [pkgW]) [pkgW] =
        Except.ok qs :=
  ⟨(claim_C10 [Package.mk "e" 0 0 []]).1 (by simp) rfl,
   (claim_C10 [pkgW]).2.1 (by decide)⟩
